import Mathlib

/-!
Verification of the fake clock implementation (package `clock`, files
`clock.go` / `wall.go`) of achilleasa/go-multiraft.

Shallow embedding conventions:
  - `time.Time` is modelled as `Int`, `time.Duration` as `Nat` (the spec and
    all claims only involve non-negative durations).
  - Go waiter records are heap-allocated and shared by pointer between the
    clock's `waiters` slice and timer handles.  We model the heap as a list
    `store : List Waiter` (index = pointer identity) and the `waiters` slice
    as a list of indices into the store.
  - A waiter's buffered channel `make(chan time.Time, 1)` is modelled as the
    list of its undelivered values (`notifyCh : List Int`) together with a
    capacity-respecting non-blocking send (`select`/`default` in the source).
  - Each public operation of the Go code becomes a pure state transformer on
    `FakeClock`.  `WaitAdvance`'s polling loop is modelled by the body of one
    polling pass (`WaitAdvanceStep`): it either observes the threshold and
    advances once, or leaves the state untouched and polls again.
-/

/-- One pending timeout/timer registration: Go struct `waiter`.
`notifyCh` holds the (at most `chanCap`) undelivered channel values. -/
structure Waiter where
  timeout : Nat
  notifyCh : List Int
  consumerWaiting : Bool
  deriving DecidableEq, Repr

/-- The fake clock: Go struct `FakeClock` (the mutex is dropped: the model is
a sequential interleaving of the critical sections).  `waiters` holds the
store indices of the live waiter records, in slice order. -/
structure FakeClock where
  waiters : List Nat
  curTime : Int
  store : List Waiter
  deriving DecidableEq, Repr

/-- Capacity of a waiter's notification channel: `make(chan time.Time, 1)`. -/
def chanCap : Nat := 1

/-- Non-blocking send on a buffered channel: `select { case ch <- v: default: }`.
If the buffer is full the value is dropped. -/
def trySend (buf : List Int) (v : Int) : List Int :=
  if buf.length < chanCap then buf ++ [v] else buf

/-- Go `makeWaiter`. -/
def makeWaiter (d : Nat) (consumerWaiting : Bool) : Waiter :=
  ⟨d, [], consumerWaiting⟩

/-- Go `NewFakeClock`. -/
def NewFakeClock (curTime : Int) : FakeClock :=
  ⟨[], curTime, []⟩

/-- Go `FakeClock.Now`. -/
def FakeClock.Now (fc : FakeClock) : Int :=
  fc.curTime

/-- Go `FakeClock.After`: allocates a waiter with `consumerWaiting = true`,
appends it to the waiters slice, and returns its channel (modelled by the
fresh store index). -/
def FakeClock.After (fc : FakeClock) (d : Nat) : FakeClock × Nat :=
  let id := fc.store.length
  (⟨fc.waiters ++ [id], fc.curTime, fc.store ++ [makeWaiter d true]⟩, id)

/-- Go `FakeClock.NewTimer`: like `After` but with `consumerWaiting = false`;
the returned index doubles as the `fakeClockTimer` handle (which stores the
waiter pointer). -/
def FakeClock.NewTimer (fc : FakeClock) (d : Nat) : FakeClock × Nat :=
  let id := fc.store.length
  (⟨fc.waiters ++ [id], fc.curTime, fc.store ++ [makeWaiter d false]⟩, id)

/-- The loop body of Go `FakeClock.Advance` (lines 130-146): walks the waiters
slice in order; a waiter with `timeout <= d` gets `timeout = 0` and a
non-blocking send of `t` (the value of `fc.curTime` read inside `Advance`) and
is not appended to `activeWaiters`; otherwise `timeout -= d` and the waiter is
kept.  Returns the updated store and the new `activeWaiters` slice.  The
`none` branch (dangling index) cannot arise from the clock's operations and
skips the entry. -/
def advanceLoop (t : Int) (d : Nat) : List Nat → List Waiter → List Waiter × List Nat
  | [], st => (st, [])
  | id :: rest, st =>
    match st[id]? with
    | none => advanceLoop t d rest st
    | some w =>
      if w.timeout ≤ d then
        advanceLoop t d rest (st.set id ⟨0, trySend w.notifyCh t, w.consumerWaiting⟩)
      else
        let r := advanceLoop t d rest (st.set id ⟨w.timeout - d, w.notifyCh, w.consumerWaiting⟩)
        (r.1, id :: r.2)

/-- Go `FakeClock.Advance`.  Note: the source line `fc.curTime.Add(d)` computes
`curTime + d` and discards the result (`time.Time.Add` is pure), so `curTime`
is left unchanged and the value sent to fired waiters is the unmodified
`fc.curTime`. -/
def FakeClock.Advance (fc : FakeClock) (d : Nat) : FakeClock :=
  let r := advanceLoop fc.curTime d fc.waiters fc.store
  ⟨r.2, fc.curTime, r.1⟩

/-- Whether the waiter record at index `id` has `consumerWaiting` set
(`w.consumerWaiting` in the `WaitAdvance` scan). -/
def watching (st : List Waiter) (id : Nat) : Bool :=
  match st[id]? with
  | some w => w.consumerWaiting
  | none => false

/-- The scan inside one polling pass of Go `FakeClock.WaitAdvance` (lines
104-114): walks the waiters slice keeping a running count `c` of waiters with
`consumerWaiting`; after each element it checks `waitingConsumers ==
numWaiters` and, on success, reports that the pass triggers the advance. -/
def waitScan (st : List Waiter) (numWaiters : Nat) : Nat → List Nat → Bool
  | _, [] => false
  | c, id :: rest =>
    let c' := if watching st id then c + 1 else c
    if c' = numWaiters then true else waitScan st numWaiters c' rest

/-- One polling pass of Go `FakeClock.WaitAdvance`: if the scan observes the
threshold, `Advance d` is called (once) and `WaitAdvance` returns; otherwise
the pass leaves the clock untouched and the loop sleeps 100ms and polls
again (modelled by the `none` result). -/
def FakeClock.WaitAdvanceStep (fc : FakeClock) (numWaiters : Nat) (d : Nat) :
    Option FakeClock :=
  if waitScan fc.store numWaiters 0 fc.waiters then some (fc.Advance d) else none

/-- Go `fakeClockTimer.C`: marks the bound waiter's `consumerWaiting` and
returns its channel. -/
def fakeClockTimer.C (fc : FakeClock) (id : Nat) : FakeClock :=
  match fc.store[id]? with
  | some w => ⟨fc.waiters, fc.curTime, fc.store.set id ⟨w.timeout, w.notifyCh, true⟩⟩
  | none => fc

/-- Go `fakeClockTimer.Reset`: sets the bound waiter's `timeout` to `d`. -/
def fakeClockTimer.Reset (fc : FakeClock) (id : Nat) (d : Nat) : FakeClock :=
  match fc.store[id]? with
  | some w => ⟨fc.waiters, fc.curTime, fc.store.set id ⟨d, w.notifyCh, w.consumerWaiting⟩⟩
  | none => fc

/-- Go `fakeClockTimer.Stop`: reads `alreadyFired := waiter.timeout == 0` from
the bound record, rebuilds `fc.waiters` without the bound waiter (pointer
comparison `w == ft.waiter`), and returns `alreadyFired`. -/
def fakeClockTimer.Stop (fc : FakeClock) (id : Nat) : FakeClock × Bool :=
  let alreadyFired := match fc.store[id]? with
    | some w => w.timeout == 0
    | none => false
  (⟨fc.waiters.filter (fun x => x != id), fc.curTime, fc.store⟩, alreadyFired)

/-- A consumer receiving one value from a waiter's channel (`<-ch`): removes
the oldest undelivered value. -/
def recv (fc : FakeClock) (id : Nat) : FakeClock :=
  match fc.store[id]? with
  | some w => ⟨fc.waiters, fc.curTime, fc.store.set id ⟨w.timeout, w.notifyCh.drop 1, w.consumerWaiting⟩⟩
  | none => fc

/-- The public operations of the fake clock, for stating trace-level
invariants over arbitrary call sequences. -/
inductive Op where
  | advance (d : Nat)
  | waitAdvance (n d : Nat)
  | after (d : Nat)
  | newTimer (d : Nat)
  | timerC (id : Nat)
  | reset (id d : Nat)
  | stop (id : Nat)
  | recvOp (id : Nat)
  deriving DecidableEq, Repr

/-- Apply one operation to the clock state (return values are dropped; a
`waitAdvance` that has not yet observed its threshold leaves the state
unchanged and keeps polling). -/
def applyOp (fc : FakeClock) : Op → FakeClock
  | .advance d => fc.Advance d
  | .waitAdvance n d =>
    match fc.WaitAdvanceStep n d with
    | some fc2 => fc2
    | none => fc
  | .after d => (fc.After d).1
  | .newTimer d => (fc.NewTimer d).1
  | .timerC id => fakeClockTimer.C fc id
  | .reset id d => fakeClockTimer.Reset fc id d
  | .stop id => (fakeClockTimer.Stop fc id).1
  | .recvOp id => recv fc id

/-- Run a sequence of operations from a starting state. -/
def runOps (fc : FakeClock) (ops : List Op) : FakeClock :=
  ops.foldl applyOp fc

/-- Fold a sequence of `Advance` calls. -/
def runAdvances (fc : FakeClock) (ds : List Nat) : FakeClock :=
  ds.foldl FakeClock.Advance fc

/-- Number of waiters in `ids` whose record has `consumerWaiting` set. -/
def countWaiting (st : List Waiter) (ids : List Nat) : Nat :=
  ids.countP (fun id => watching st id)

/-! ### Helper lemmas about list indexing -/

lemma mem_of_getElem_some {l : List Waiter} {i : Nat} {a : Waiter}
    (h : l[i]? = some a) : a ∈ l := by
  obtain ⟨hlt, he⟩ := List.getElem?_eq_some.mp h
  exact he ▸ List.getElem_mem hlt

lemma getElem_set_same {l : List Waiter} {i : Nat} {a w : Waiter}
    (h : l[i]? = some w) : (l.set i a)[i]? = some a := by
  obtain ⟨hlt, -⟩ := List.getElem?_eq_some.mp h
  simp [List.getElem?_set_self', hlt]

/-! ### Helper lemmas about the `Advance` loop -/

lemma advanceLoop_fst_length (t : Int) (d : Nat) (ids : List Nat) (st : List Waiter) :
    (advanceLoop t d ids st).1.length = st.length := by
  induction ids generalizing st with
  | nil => rfl
  | cons a rest ih =>
    simp only [advanceLoop]
    cases hst : st[a]? with
    | none => exact ih st
    | some w =>
      by_cases hle : w.timeout ≤ d
      · simp only [hle, if_true]
        rw [ih, List.length_set]
      · simp only [hle, if_false]
        rw [ih, List.length_set]

lemma advanceLoop_fst_getElem_of_not_mem (t : Int) (d : Nat) (ids : List Nat)
    (st : List Waiter) (j : Nat) (hj : j ∉ ids) :
    (advanceLoop t d ids st).1[j]? = st[j]? := by
  induction ids generalizing st with
  | nil => rfl
  | cons a rest ih =>
    have hja : a ≠ j := fun h => hj (h ▸ List.mem_cons_self a rest)
    have hjr : j ∉ rest := fun h => hj (List.mem_cons_of_mem a h)
    simp only [advanceLoop]
    cases hst : st[a]? with
    | none => exact ih st hjr
    | some w =>
      by_cases hle : w.timeout ≤ d
      · simp only [hle, if_true]
        rw [ih _ hjr, List.getElem?_set_ne hja]
      · simp only [hle, if_false]
        rw [ih _ hjr, List.getElem?_set_ne hja]

lemma advanceLoop_snd_subset (t : Int) (d : Nat) (ids : List Nat) (st : List Waiter) :
    ∀ x ∈ (advanceLoop t d ids st).2, x ∈ ids := by
  induction ids generalizing st with
  | nil => intro x hx; exact absurd hx (List.not_mem_nil x)
  | cons a rest ih =>
    intro x hx
    cases hst : st[a]? with
    | none =>
      simp only [advanceLoop, hst] at hx
      exact List.mem_cons_of_mem a (ih st x hx)
    | some w =>
      by_cases hle : w.timeout ≤ d
      · simp only [advanceLoop, hst, hle, if_true] at hx
        exact List.mem_cons_of_mem a (ih _ x hx)
      · simp only [advanceLoop, hst, hle, if_false] at hx
        rcases List.mem_cons.mp hx with h | h
        · exact h ▸ List.mem_cons_self a rest
        · exact List.mem_cons_of_mem a (ih _ x h)

lemma advanceLoop_fst_getElem_of_mem (t : Int) (d : Nat) {ids : List Nat}
    {st : List Waiter} {id : Nat} {w : Waiter}
    (hnd : ids.Nodup) (hmem : id ∈ ids) (hw : st[id]? = some w) :
    (advanceLoop t d ids st).1[id]? =
      some (if w.timeout ≤ d then ⟨0, trySend w.notifyCh t, w.consumerWaiting⟩
            else ⟨w.timeout - d, w.notifyCh, w.consumerWaiting⟩) := by
  induction ids generalizing st with
  | nil => exact absurd hmem (List.not_mem_nil id)
  | cons a rest ih =>
    have hnd2 : rest.Nodup := (List.nodup_cons.mp hnd).2
    have hna : a ∉ rest := (List.nodup_cons.mp hnd).1
    rcases List.mem_cons.mp hmem with heq | hr
    · subst heq
      simp only [advanceLoop, hw]
      by_cases hle : w.timeout ≤ d
      · simp only [hle, if_pos hle, if_true]
        rw [advanceLoop_fst_getElem_of_not_mem t d rest _ id hna]
        exact getElem_set_same hw
      · simp only [hle, if_neg hle, if_false]
        rw [advanceLoop_fst_getElem_of_not_mem t d rest _ id hna]
        exact getElem_set_same hw
    · have hne : a ≠ id := fun h => hna (h ▸ hr)
      simp only [advanceLoop]
      cases hst : st[a]? with
      | none => exact ih hnd2 hr hw
      | some wa =>
        by_cases hle : wa.timeout ≤ d
        · simp only [hle, if_true]
          exact ih hnd2 hr (by rw [List.getElem?_set_ne hne]; exact hw)
        · simp only [hle, if_false]
          exact ih hnd2 hr (by rw [List.getElem?_set_ne hne]; exact hw)

lemma advanceLoop_mem_snd (t : Int) (d : Nat) {ids : List Nat}
    {st : List Waiter} {id : Nat} {w : Waiter}
    (hnd : ids.Nodup) (hmem : id ∈ ids) (hw : st[id]? = some w) :
    (id ∈ (advanceLoop t d ids st).2 ↔ d < w.timeout) := by
  induction ids generalizing st with
  | nil => exact absurd hmem (List.not_mem_nil id)
  | cons a rest ih =>
    have hnd2 : rest.Nodup := (List.nodup_cons.mp hnd).2
    have hna : a ∉ rest := (List.nodup_cons.mp hnd).1
    rcases List.mem_cons.mp hmem with heq | hr
    · subst heq
      simp only [advanceLoop, hw]
      by_cases hle : w.timeout ≤ d
      · simp only [hle, if_true]
        constructor
        · intro hin
          exact absurd (advanceLoop_snd_subset t d rest _ id hin) hna
        · intro hlt
          exact absurd hle (Nat.not_le_of_lt hlt)
      · simp only [hle, if_false]
        constructor
        · intro _; exact Nat.lt_of_not_le hle
        · intro _; exact List.mem_cons_self id _
    · have hne : a ≠ id := fun h => hna (h ▸ hr)
      simp only [advanceLoop]
      cases hst : st[a]? with
      | none => exact ih hnd2 hr hw
      | some wa =>
        have hw2 : ∀ v : Waiter, (st.set a v)[id]? = some w := by
          intro v; rw [List.getElem?_set_ne hne]; exact hw
        by_cases hle : wa.timeout ≤ d
        · simp only [hle, if_true]
          exact ih hnd2 hr (hw2 _)
        · simp only [hle, if_false]
          rw [List.mem_cons]
          constructor
          · intro h
            rcases h with h | h
            · exact absurd (h ▸ hr) hna
            · exact (ih hnd2 hr (hw2 _)).mp h
          · intro h
            exact Or.inr ((ih hnd2 hr (hw2 _)).mpr h)

lemma advanceLoop_fst_pred (t : Int) (d : Nat) (P : Waiter → Prop)
    (hfire : ∀ w : Waiter, P w → P ⟨0, trySend w.notifyCh t, w.consumerWaiting⟩)
    (hdec : ∀ w : Waiter, P w → P ⟨w.timeout - d, w.notifyCh, w.consumerWaiting⟩)
    (ids : List Nat) (st : List Waiter) (hst : ∀ w ∈ st, P w) :
    ∀ w ∈ (advanceLoop t d ids st).1, P w := by
  induction ids generalizing st with
  | nil => exact hst
  | cons a rest ih =>
    simp only [advanceLoop]
    cases hsa : st[a]? with
    | none => exact ih st hst
    | some w =>
      have hwmem : w ∈ st := mem_of_getElem_some hsa
      by_cases hle : w.timeout ≤ d
      · simp only [hle, if_true]
        refine ih _ ?_
        intro x hx
        rcases List.mem_or_eq_of_mem_set hx with h | h
        · exact hst x h
        · exact h ▸ hfire w (hst w hwmem)
      · simp only [hle, if_false]
        refine ih _ ?_
        intro x hx
        rcases List.mem_or_eq_of_mem_set hx with h | h
        · exact hst x h
        · exact h ▸ hdec w (hst w hwmem)

/-! ### Helper lemmas about the `WaitAdvance` scan -/

lemma waitScan_threshold {st : List Waiter} {n : Nat} {ids : List Nat} :
    ∀ {c : Nat}, waitScan st n c ids = true → n ≤ c + countWaiting st ids := by
  induction ids with
  | nil => intro c h; exact absurd h (by simp [waitScan])
  | cons a rest ih =>
    intro c h
    simp only [waitScan] at h
    rw [countWaiting, List.countP_cons]
    by_cases hc : (if watching st a then c + 1 else c) = n
    · cases hwa : watching st a with
      | true => simp only [hwa, if_true] at hc ⊢; omega
      | false => simp [hwa] at hc ⊢; omega
    · rw [if_neg hc] at h
      have := ih h
      rw [countWaiting] at this
      cases hwa : watching st a with
      | true => simp only [hwa, if_true] at this ⊢; omega
      | false => simp [hwa] at this ⊢; omega

lemma waitScan_iff_exists {st : List Waiter} {n : Nat} {ids : List Nat} :
    ∀ {c : Nat}, waitScan st n c ids = true ↔
      ∃ k, k < ids.length ∧ c + countWaiting st (ids.take (k + 1)) = n := by
  induction ids with
  | nil =>
    intro c
    simp [waitScan]
  | cons a rest ih =>
    intro c
    simp only [waitScan]
    by_cases hc : (if watching st a then c + 1 else c) = n
    · rw [if_pos hc]
      constructor
      · intro _
        refine ⟨0, Nat.succ_pos _, ?_⟩
        simp only [List.take_succ_cons, List.take_zero, countWaiting, List.countP_cons,
          List.countP_nil]
        cases hwa : watching st a with
        | true => simp only [hwa, if_true] at hc ⊢; omega
        | false => simp [hwa] at hc ⊢; omega
      · intro _; rfl
    · rw [if_neg hc]
      have hstep : ∀ k, c + countWaiting st ((a :: rest).take (k + 1)) =
          (if watching st a then c + 1 else c) + countWaiting st (rest.take k) := by
        intro k
        simp only [List.take_succ_cons, countWaiting, List.countP_cons]
        cases hwa : watching st a with
        | true => simp only [hwa, if_true]; omega
        | false => simp [hwa]
      rw [ih]
      constructor
      · rintro ⟨k, hk, hsum⟩
        refine ⟨k + 1, by simpa using Nat.succ_lt_succ hk, ?_⟩
        rw [hstep (k + 1)]
        exact hsum
      · rintro ⟨k, hk, hsum⟩
        rw [hstep k] at hsum
        cases k with
        | zero =>
          simp only [List.take_zero, countWaiting, List.countP_nil, Nat.add_zero] at hsum
          exact absurd hsum hc
        | succ j =>
          exact ⟨j, by simpa using Nat.lt_of_succ_lt_succ hk, hsum⟩

/-! ### The current time is never modified by any operation -/

lemma Advance_curTime (fc : FakeClock) (d : Nat) : (fc.Advance d).curTime = fc.curTime :=
  rfl

lemma applyOp_curTime (fc : FakeClock) (op : Op) : (applyOp fc op).curTime = fc.curTime := by
  cases op with
  | advance d => rfl
  | waitAdvance n d =>
    simp only [applyOp, FakeClock.WaitAdvanceStep]
    cases h : waitScan fc.store n 0 fc.waiters with
    | true => rfl
    | false => rfl
  | after d => rfl
  | newTimer d => rfl
  | timerC id =>
    simp only [applyOp, fakeClockTimer.C]
    cases fc.store[id]? <;> rfl
  | reset id d =>
    simp only [applyOp, fakeClockTimer.Reset]
    cases fc.store[id]? <;> rfl
  | stop id => rfl
  | recvOp id =>
    simp only [applyOp, recv]
    cases fc.store[id]? <;> rfl

/-! ### Channel-capacity invariant -/

/-- Every waiter record ever allocated holds at most `chanCap` undelivered
values in its notification channel. -/
def SlotsOK (fc : FakeClock) : Prop :=
  ∀ w ∈ fc.store, w.notifyCh.length ≤ chanCap

lemma trySend_length_le {buf : List Int} (v : Int) (h : buf.length ≤ chanCap) :
    (trySend buf v).length ≤ chanCap := by
  unfold trySend
  by_cases hlt : buf.length < chanCap
  · simp only [hlt, if_true, List.length_append, List.length_singleton]
    omega
  · simp only [hlt, if_false]
    exact h

lemma applyOp_SlotsOK (fc : FakeClock) (op : Op) (h : SlotsOK fc) :
    SlotsOK (applyOp fc op) := by
  have hadv : ∀ d : Nat, SlotsOK (fc.Advance d) := by
    intro d
    exact advanceLoop_fst_pred fc.curTime d (fun w => w.notifyCh.length ≤ chanCap)
      (fun w hw => trySend_length_le fc.curTime hw)
      (fun w hw => hw) fc.waiters fc.store h
  have hset : ∀ (id : Nat) (v : Waiter), v.notifyCh.length ≤ chanCap →
      ∀ w ∈ fc.store.set id v, w.notifyCh.length ≤ chanCap := by
    intro id v hv w hw
    rcases List.mem_or_eq_of_mem_set hw with hmem | heq
    · exact h w hmem
    · exact heq ▸ hv
  cases op with
  | advance d => exact hadv d
  | waitAdvance n d =>
    simp only [applyOp, FakeClock.WaitAdvanceStep]
    cases hb : waitScan fc.store n 0 fc.waiters with
    | true => exact hadv d
    | false => exact h
  | after d =>
    intro w hw
    rcases List.mem_append.mp hw with hmem | heq
    · exact h w hmem
    · simp only [List.mem_singleton] at heq
      subst heq
      simp [makeWaiter, chanCap]
  | newTimer d =>
    intro w hw
    rcases List.mem_append.mp hw with hmem | heq
    · exact h w hmem
    · simp only [List.mem_singleton] at heq
      subst heq
      simp [makeWaiter, chanCap]
  | timerC id =>
    simp only [applyOp, fakeClockTimer.C]
    cases hid : fc.store[id]? with
    | none => exact h
    | some w => exact hset id _ (h w (mem_of_getElem_some hid))
  | reset id d =>
    simp only [applyOp, fakeClockTimer.Reset]
    cases hid : fc.store[id]? with
    | none => exact h
    | some w => exact hset id _ (h w (mem_of_getElem_some hid))
  | stop id => exact h
  | recvOp id =>
    simp only [applyOp, recv]
    cases hid : fc.store[id]? with
    | none => exact h
    | some w =>
      refine hset id _ ?_
      have := h w (mem_of_getElem_some hid)
      simp only [List.length_drop]
      omega

lemma Advance_waiters_eq (fc : FakeClock) (d : Nat) :
    (fc.Advance d).waiters = (advanceLoop fc.curTime d fc.waiters fc.store).2 :=
  rfl

lemma Advance_store_eq (fc : FakeClock) (d : Nat) :
    (fc.Advance d).store = (advanceLoop fc.curTime d fc.waiters fc.store).1 :=
  rfl

lemma Advance_of_not_mem (fc : FakeClock) (d : Nat) (id : Nat) (h : id ∉ fc.waiters) :
    (fc.Advance d).store[id]? = fc.store[id]? ∧ id ∉ (fc.Advance d).waiters := by
  constructor
  · rw [Advance_store_eq]
    exact advanceLoop_fst_getElem_of_not_mem fc.curTime d fc.waiters fc.store id h
  · rw [Advance_waiters_eq]
    intro hin
    exact h (advanceLoop_snd_subset fc.curTime d fc.waiters fc.store id hin)

lemma runAdvances_of_not_mem (ds : List Nat) (fc : FakeClock) (id : Nat)
    (h : id ∉ fc.waiters) :
    (runAdvances fc ds).store[id]? = fc.store[id]? ∧ id ∉ (runAdvances fc ds).waiters := by
  induction ds generalizing fc with
  | nil => exact ⟨rfl, h⟩
  | cons d ds ih =>
    have h1 := Advance_of_not_mem fc d id h
    have h2 := ih (fc.Advance d) h1.2
    exact ⟨h2.1.trans h1.1, h2.2⟩

lemma runOps_curTime (ops : List Op) (fc : FakeClock) :
    (runOps fc ops).curTime = fc.curTime := by
  induction ops generalizing fc with
  | nil => rfl
  | cons op ops ih =>
    show (runOps (applyOp fc op) ops).curTime = fc.curTime
    rw [ih (applyOp fc op), applyOp_curTime]

lemma runOps_SlotsOK (ops : List Op) (fc : FakeClock) (h : SlotsOK fc) :
    SlotsOK (runOps fc ops) := by
  induction ops generalizing fc with
  | nil => exact h
  | cons op ops ih =>
    exact ih (applyOp fc op) (applyOp_SlotsOK fc op h)

/-! ## Claim theorems -/

/-- Claim C1: the spec says `Now()` immediately after `Advance(d)` equals the
value `Now()` returned before, plus `d`.  The code violates this: line 127
(`fc.curTime.Add(d)`) discards the result of the pure `time.Time.Add`, so
`curTime` is never updated.  This theorem evaluates the code at the failing
input: a clock constructed at instant 0, advanced by 5, still reports 0 (the
claim requires 5). -/
theorem C1_advance_does_not_change_now :
    ((NewFakeClock 0).Advance 5).Now = 0 ∧ (NewFakeClock 0).Now + 5 = 5 ∧ (0 : Int) ≠ 5 := by
  refine ⟨rfl, rfl, by decide⟩

/-- Claim C9: for every initial instant and every sequence of `Advance`,
`WaitAdvance`, `After`, `NewTimer`, `C`, `Reset`, `Stop` and channel-receive
calls, `Now()` still returns exactly the instant passed to `NewFakeClock`:
`curTime` is never reassigned after construction. -/
theorem C9_now_is_constant (t : Int) (ops : List Op) :
    (runOps (NewFakeClock t) ops).Now = t :=
  runOps_curTime ops (NewFakeClock t)

/-- Claim C2 counterexample: a timer waiter IS removed from the clock's waiter
collection by `Advance` when the advance fires it, with no `Stop` call
involved.  Concretely: `NewTimer(5)` puts waiter 0 in the collection, and
`Advance(5)` (which fires it) leaves the collection empty. -/
theorem C2_counterexample_fired_timer_removed :
    (((NewFakeClock 0).NewTimer 5).1).waiters = [0] ∧
    ((((NewFakeClock 0).NewTimer 5).1).Advance 5).waiters = [] := by
  exact ⟨rfl, by decide⟩

/-- Claim C2 (amended): an `Advance` that makes a waiter's remaining duration
reach zero removes that waiter from the clock's waiter collection - for timer
waiters exactly as for one-shot waiters; an explicit `Stop` on the handle also
removes it. -/
theorem C2_amended_fired_waiters_removed :
    (∀ (fc : FakeClock) (d id : Nat) (w : Waiter),
      fc.waiters.Nodup → fc.store[id]? = some w → id ∈ fc.waiters →
      w.timeout ≤ d → id ∉ (fc.Advance d).waiters)
    ∧ (∀ (fc : FakeClock) (id : Nat), id ∉ ((fakeClockTimer.Stop fc id).1).waiters) := by
  constructor
  · intro fc d id w hnd hw hmem hle
    rw [Advance_waiters_eq]
    intro hin
    have := (advanceLoop_mem_snd fc.curTime d hnd hmem hw).mp hin
    omega
  · intro fc id
    intro hin
    simp only [fakeClockTimer.Stop, List.mem_filter] at hin
    simp at hin

/-- Claim C2 amended, witnessed at a concrete input: the fired timer waiter of
the counterexample is indeed gone, and `Stop` removes waiter 0 as well. -/
theorem C2_amended_witness :
    0 ∉ ((((NewFakeClock 0).NewTimer 5).1).Advance 5).waiters ∧
    0 ∉ ((fakeClockTimer.Stop (((NewFakeClock 0).NewTimer 5).1) 0).1).waiters :=
  ⟨C2_amended_fired_waiters_removed.1 (((NewFakeClock 0).NewTimer 5).1) 5 0
      ⟨5, [], false⟩ (by decide) (by decide) (by decide) (by decide),
    C2_amended_fired_waiters_removed.2 (((NewFakeClock 0).NewTimer 5).1) 0⟩

/-- Claim C3: the spec says a timer that has fired, been stopped (`true`) and
been `Reset(d)` fires again after `Advance(d)`.  The code violates this (and
`Timer.Reset`'s own documented contract): the fired waiter was dropped from
`fc.waiters` by `Advance`, and `Reset` only writes the orphaned record's
`timeout` without re-registering it, so the second `Advance` delivers nothing.
This theorem evaluates the code along the claim's scenario: timer for 1 tick
at instant 0; `Advance 1` fires it (channel holds the notification `0`);
`Stop` reports `true`; the consumer drains the channel; `Reset 1`; `Advance 1`
leaves the channel empty — no new notification — and the waiter collection
empty. -/
theorem C3_reset_after_fire_does_not_rearm :
    (((NewFakeClock 0).NewTimer 1).1.Advance 1).store = [⟨0, [0], false⟩] ∧
    (fakeClockTimer.Stop (((NewFakeClock 0).NewTimer 1).1.Advance 1) 0).2 = true ∧
    ((fakeClockTimer.Reset
        (recv ((fakeClockTimer.Stop (((NewFakeClock 0).NewTimer 1).1.Advance 1) 0).1) 0)
        0 1).Advance 1).store = [⟨1, [], false⟩] ∧
    ((fakeClockTimer.Reset
        (recv ((fakeClockTimer.Stop (((NewFakeClock 0).NewTimer 1).1.Advance 1) 0).1) 0)
        0 1).Advance 1).waiters = [] := by
  refine ⟨by decide, by decide, by decide, by decide⟩

/-- Claim C5: `Stop()` removes the bound waiter from the clock's waiter
collection and returns `true` iff the waiter's remaining duration was 0 at the
time of the call; afterwards, no sequence of `Advance` calls touches that
waiter's record (in particular its notification channel never receives another
value) and the waiter never re-enters the collection. -/
theorem C5_stop_semantics (fc : FakeClock) (id : Nat) (w : Waiter)
    (hw : fc.store[id]? = some w) :
    ((fakeClockTimer.Stop fc id).2 = true ↔ w.timeout = 0) ∧
    id ∉ (fakeClockTimer.Stop fc id).1.waiters ∧
    ∀ ds : List Nat,
      (runAdvances (fakeClockTimer.Stop fc id).1 ds).store[id]? = some w ∧
      id ∉ (runAdvances (fakeClockTimer.Stop fc id).1 ds).waiters := by
  have hnot : id ∉ (fakeClockTimer.Stop fc id).1.waiters := by
    intro hin
    simp only [fakeClockTimer.Stop, List.mem_filter] at hin
    simp at hin
  refine ⟨?_, hnot, ?_⟩
  · simp only [fakeClockTimer.Stop, hw]
    simp
  · intro ds
    have h := runAdvances_of_not_mem ds (fakeClockTimer.Stop fc id).1 id hnot
    refine ⟨h.1.trans ?_, h.2⟩
    simpa only [fakeClockTimer.Stop] using hw

/-- Claim C5, witnessed at a concrete input: `Stop` on the still-armed waiter
of `After(3)` returns `false` (its remaining 3 is nonzero), removes it from
the collection, and two further `Advance(5)` calls leave its record — channel
included — untouched and the waiter out of the collection. -/
theorem C5_witness :
    ((fakeClockTimer.Stop (((NewFakeClock 2).After 3).1) 0).2 = true ↔ (3 : Nat) = 0) ∧
    0 ∉ (fakeClockTimer.Stop (((NewFakeClock 2).After 3).1) 0).1.waiters ∧
    (runAdvances (fakeClockTimer.Stop (((NewFakeClock 2).After 3).1) 0).1 [5, 5]).store[0]? =
      some ⟨3, [], true⟩ ∧
    0 ∉ (runAdvances (fakeClockTimer.Stop (((NewFakeClock 2).After 3).1) 0).1 [5, 5]).waiters := by
  have hc := C5_stop_semantics (((NewFakeClock 2).After 3).1) 0 ⟨3, [], true⟩ (by decide)
  exact ⟨hc.1, hc.2.1, (hc.2.2 [5, 5]).1, (hc.2.2 [5, 5]).2⟩

/-- Claim C7: one polling pass of `WaitAdvance(numWaiters, d)` invokes
`Advance` only if the scan over the waiter collection has observed the
`consumerWaiting` count reach `numWaiters`; when it does, the result is
exactly one `Advance d` applied to the clock, and `WaitAdvance` returns. -/
theorem C7_waitadvance_gates_advance (fc : FakeClock) (n d : Nat) (fc2 : FakeClock)
    (h : fc.WaitAdvanceStep n d = some fc2) :
    n ≤ countWaiting fc.store fc.waiters ∧ fc2 = fc.Advance d := by
  rw [FakeClock.WaitAdvanceStep] at h
  cases hb : waitScan fc.store n 0 fc.waiters with
  | false =>
    rw [hb] at h
    simp at h
  | true =>
    rw [hb] at h
    simp only [if_true] at h
    have := waitScan_threshold hb
    exact ⟨by omega, (Option.some_injective _ h).symm⟩

/-- Claim C7, witnessed: on a clock with one watched waiter (`After(3)`),
`WaitAdvance(1, 3)`'s pass observes the threshold and performs the advance. -/
theorem C7_witness :
    1 ≤ countWaiting (((NewFakeClock 0).After 3).1).store (((NewFakeClock 0).After 3).1).waiters ∧
    (⟨[], 0, [⟨0, [0], true⟩]⟩ : FakeClock) = (((NewFakeClock 0).After 3).1).Advance 3 :=
  C7_waitadvance_gates_advance (((NewFakeClock 0).After 3).1) 1 3
    ⟨[], 0, [⟨0, [0], true⟩]⟩ (by decide)

/-- Claim C10: the threshold comparison of `WaitAdvance` is evaluated only
inside the loop over the waiter collection, so `WaitAdvance(0, d)` on a clock
with an empty waiter collection never advances (every polling pass returns
without triggering, and the loop polls forever); in general a pass triggers
iff the running count of `consumerWaiting` waiters becomes exactly equal to
`numWaiters` at some waiter during the scan. -/
theorem C10_threshold_checked_inside_loop :
    (∀ (t : Int) (d : Nat), (NewFakeClock t).WaitAdvanceStep 0 d = none)
    ∧ (∀ (st : List Waiter) (n : Nat) (ids : List Nat),
        waitScan st n 0 ids = true ↔
          ∃ k, k < ids.length ∧ countWaiting st (ids.take (k + 1)) = n) := by
  constructor
  · intro t d
    rfl
  · intro st n ids
    rw [waitScan_iff_exists]
    constructor
    · rintro ⟨k, hk, hsum⟩
      exact ⟨k, hk, by omega⟩
    · rintro ⟨k, hk, hsum⟩
      exact ⟨k, hk, by omega⟩

/-- Claim C4: in `Advance(d)`, every live waiter with remaining `<= d` gets
remaining set to 0 and a non-blocking send of the post-advance current time
into its channel, and is no longer active; every waiter with remaining `> d`
is decremented by exactly `d` and stays active.  In particular, for two
`After` waiters with `d1 < d2`, advancing by `d1` fires only the first and
leaves the second armed with remaining `d2 - d1`, and advancing by `d2` fires
both.  (The post-advance current time equals the pre-advance one, since
`curTime` is never reassigned.) -/
theorem C4_advance_per_waiter :
    (∀ (fc : FakeClock) (d id : Nat) (w : Waiter),
      fc.waiters.Nodup → id ∈ fc.waiters → fc.store[id]? = some w →
      ((w.timeout ≤ d →
          (fc.Advance d).store[id]? =
            some ⟨0, trySend w.notifyCh ((fc.Advance d).Now), w.consumerWaiting⟩ ∧
          id ∉ (fc.Advance d).waiters) ∧
       (d < w.timeout →
          (fc.Advance d).store[id]? = some ⟨w.timeout - d, w.notifyCh, w.consumerWaiting⟩ ∧
          id ∈ (fc.Advance d).waiters)))
    ∧ (∀ (t : Int) (d1 d2 : Nat), d1 < d2 →
        ((((NewFakeClock t).After d1).1.After d2).1.Advance d1 =
            ⟨[1], t, [⟨0, [t], true⟩, ⟨d2 - d1, [], true⟩]⟩) ∧
        ((((NewFakeClock t).After d1).1.After d2).1.Advance d2 =
            ⟨[], t, [⟨0, [t], true⟩, ⟨0, [t], true⟩]⟩)) := by
  constructor
  · intro fc d id w hnd hmem hw
    have hget := advanceLoop_fst_getElem_of_mem fc.curTime d hnd hmem hw
    have hsnd := advanceLoop_mem_snd fc.curTime d hnd hmem hw
    constructor
    · intro hle
      constructor
      · rw [Advance_store_eq, hget, if_pos hle]
        rfl
      · rw [Advance_waiters_eq]
        intro hin
        have := hsnd.mp hin
        omega
    · intro hlt
      constructor
      · rw [Advance_store_eq, hget, if_neg (by omega)]
      · rw [Advance_waiters_eq]
        exact hsnd.mpr hlt
  · intro t d1 d2 h
    have h21 : ¬ d2 ≤ d1 := Nat.not_le.mpr h
    have h12 : d1 ≤ d2 := Nat.le_of_lt h
    constructor
    · simp [FakeClock.Advance, FakeClock.After, NewFakeClock, advanceLoop, makeWaiter,
        trySend, chanCap, h21]
    · simp [FakeClock.Advance, FakeClock.After, NewFakeClock, advanceLoop, makeWaiter,
        trySend, chanCap, h12]

/-- Claim C4, witnessed at concrete inputs: on a clock at instant 9 with one
waiter of remaining 3, `Advance 5` zeroes it, sends 9, and drops it from the
collection, while `Advance 2` leaves it armed with remaining 1; and the
two-waiter scenario at `t = 0`, `d1 = 1`, `d2 = 2`. -/
theorem C4_witness :
    (((⟨[0], 9, [⟨3, [], true⟩]⟩ : FakeClock).Advance 5).store[0]? =
        some ⟨0, trySend [] (((⟨[0], 9, [⟨3, [], true⟩]⟩ : FakeClock).Advance 5).Now), true⟩ ∧
      0 ∉ ((⟨[0], 9, [⟨3, [], true⟩]⟩ : FakeClock).Advance 5).waiters) ∧
    (((⟨[0], 9, [⟨3, [], true⟩]⟩ : FakeClock).Advance 2).store[0]? = some ⟨1, [], true⟩ ∧
      0 ∈ ((⟨[0], 9, [⟨3, [], true⟩]⟩ : FakeClock).Advance 2).waiters) ∧
    ((((NewFakeClock 0).After 1).1.After 2).1.Advance 1 =
        ⟨[1], 0, [⟨0, [0], true⟩, ⟨1, [], true⟩]⟩) := by
  refine ⟨(C4_advance_per_waiter.1 ⟨[0], 9, [⟨3, [], true⟩]⟩ 5 0 ⟨3, [], true⟩
      (by decide) (by decide) (by decide)).1 (by decide),
    ?_,
    by simpa using (C4_advance_per_waiter.2 0 1 2 (by decide)).1⟩
  have := (C4_advance_per_waiter.1 ⟨[0], 9, [⟨3, [], true⟩]⟩ 2 0 ⟨3, [], true⟩
      (by decide) (by decide) (by decide)).2 (by decide)
  simpa using this

/-- Claim C6: a waiter's notification channel holds at most one undelivered
value at all times; a send into an occupied channel is silently dropped (the
channel is left exactly as it was: nothing blocks, errors, overwrites or
queues); and running two `Advance` calls past a waiter's expiry with no
draining in between leaves exactly one value in its channel. -/
theorem C6_at_most_one_undelivered :
    (∀ (buf : List Int) (v : Int), chanCap ≤ buf.length → trySend buf v = buf)
    ∧ (∀ (t : Int) (ops : List Op) (w : Waiter),
        w ∈ (runOps (NewFakeClock t) ops).store → w.notifyCh.length ≤ chanCap)
    ∧ (∀ t : Int,
        runOps (NewFakeClock t) [Op.after 2, Op.advance 5, Op.advance 5] =
          ⟨[], t, [⟨0, [t], true⟩]⟩) := by
  refine ⟨?_, ?_, fun t => rfl⟩
  · intro buf v h
    rw [trySend, if_neg (by omega)]
  · intro t ops w hmem
    exact runOps_SlotsOK ops (NewFakeClock t)
      (fun w hw => absurd hw (List.not_mem_nil w)) w hmem

/-- Claim C6, witnessed: a send into the occupied channel `[5]` leaves it
`[5]`, and the one waiter left after `After(0+2)` and a double advance has one
undelivered value. -/
theorem C6_witness :
    trySend [5] 7 = [5] ∧
    (⟨0, [3], true⟩ : Waiter).notifyCh.length ≤ chanCap :=
  ⟨C6_at_most_one_undelivered.1 [5] 7 (by decide),
    C6_at_most_one_undelivered.2.1 3 [Op.after 2, Op.advance 5, Op.advance 5]
      ⟨0, [3], true⟩ (by decide)⟩

/-- Claim C8: `Advance(0)` fires (zeroes, notifies with the current time, and
retires) exactly the waiters whose remaining duration is already 0, leaves
every other live waiter's record untouched and active, and changes nothing
else (current time and non-live records included); and a waiter registered via
`After(0)` fires on the very next `Advance(d)` for any positive `d`. -/
theorem C8_zero_duration_behavior :
    (∀ (fc : FakeClock) (id : Nat) (w : Waiter),
      fc.waiters.Nodup → id ∈ fc.waiters → fc.store[id]? = some w →
      ((w.timeout = 0 →
          (fc.Advance 0).store[id]? =
            some ⟨0, trySend w.notifyCh fc.Now, w.consumerWaiting⟩ ∧
          id ∉ (fc.Advance 0).waiters) ∧
       (0 < w.timeout →
          (fc.Advance 0).store[id]? = some w ∧ id ∈ (fc.Advance 0).waiters)))
    ∧ (∀ fc : FakeClock, (fc.Advance 0).Now = fc.Now ∧
        ∀ j : Nat, j ∉ fc.waiters → (fc.Advance 0).store[j]? = fc.store[j]?)
    ∧ (∀ (fc : FakeClock) (d : Nat),
        fc.waiters.Nodup → (∀ i ∈ fc.waiters, i < fc.store.length) → 0 < d →
        ((fc.After 0).1.Advance d).store[(fc.After 0).2]? = some ⟨0, [fc.Now], true⟩ ∧
        (fc.After 0).2 ∉ ((fc.After 0).1.Advance d).waiters) := by
  refine ⟨?_, ?_, ?_⟩
  · intro fc id w hnd hmem hw
    have hget := advanceLoop_fst_getElem_of_mem fc.curTime 0 hnd hmem hw
    have hsnd := advanceLoop_mem_snd fc.curTime 0 hnd hmem hw
    constructor
    · intro hz
      constructor
      · rw [Advance_store_eq, hget, if_pos (by omega)]
        rfl
      · rw [Advance_waiters_eq]
        intro hin
        have := hsnd.mp hin
        omega
    · intro hpos
      constructor
      · rw [Advance_store_eq, hget, if_neg (by omega)]
        simp
      · rw [Advance_waiters_eq]
        exact hsnd.mpr hpos
  · intro fc
    exact ⟨rfl, fun j hj => (Advance_of_not_mem fc 0 j hj).1⟩
  · intro fc d hnd hbound hd
    have hidnot : fc.store.length ∉ fc.waiters :=
      fun hin => absurd (hbound _ hin) (Nat.lt_irrefl _)
    have hnd1 : (fc.waiters ++ [fc.store.length]).Nodup := by
      rw [List.nodup_append]
      refine ⟨hnd, List.nodup_singleton _, ?_⟩
      simp [List.disjoint_singleton, hidnot]
    have hmem1 : fc.store.length ∈ fc.waiters ++ [fc.store.length] := by simp
    have hw1 : (fc.store ++ [makeWaiter 0 true])[fc.store.length]? = some (makeWaiter 0 true) :=
      List.getElem?_concat_length fc.store (makeWaiter 0 true)
    have hget := advanceLoop_fst_getElem_of_mem fc.curTime d hnd1 hmem1 hw1
    have hsnd := advanceLoop_mem_snd fc.curTime d hnd1 hmem1 hw1
    constructor
    · show (advanceLoop fc.curTime d (fc.waiters ++ [fc.store.length])
          (fc.store ++ [makeWaiter 0 true])).1[fc.store.length]? =
        some ⟨0, [fc.Now], true⟩
      rw [hget, if_pos (by simp [makeWaiter])]
      rfl
    · show fc.store.length ∉ (advanceLoop fc.curTime d (fc.waiters ++ [fc.store.length])
          (fc.store ++ [makeWaiter 0 true])).2
      intro hin
      have := hsnd.mp hin
      simp [makeWaiter] at this

/-- Claim C8, witnessed: on a clock at instant 4 with an expired waiter 0 and
an armed waiter 1, `Advance(0)` fires waiter 0 (delivering 4) and leaves
waiter 1 untouched and active, and leaves out-of-collection records alone; and
an `After(0)` waiter on a fresh clock at instant 6 fires on `Advance(3)`. -/
theorem C8_witness :
    (((⟨[0, 1], 4, [⟨0, [], true⟩, ⟨2, [], true⟩]⟩ : FakeClock).Advance 0).store[0]? =
        some ⟨0, trySend [] (⟨[0, 1], 4, [⟨0, [], true⟩, ⟨2, [], true⟩]⟩ : FakeClock).Now,
          true⟩ ∧
      0 ∉ ((⟨[0, 1], 4, [⟨0, [], true⟩, ⟨2, [], true⟩]⟩ : FakeClock).Advance 0).waiters) ∧
    (((⟨[0, 1], 4, [⟨0, [], true⟩, ⟨2, [], true⟩]⟩ : FakeClock).Advance 0).store[1]? =
        some ⟨2, [], true⟩ ∧
      1 ∈ ((⟨[0, 1], 4, [⟨0, [], true⟩, ⟨2, [], true⟩]⟩ : FakeClock).Advance 0).waiters) ∧
    ((⟨[0, 1], 4, [⟨0, [], true⟩, ⟨2, [], true⟩]⟩ : FakeClock).Advance 0).store[5]? =
      (⟨[0, 1], 4, [⟨0, [], true⟩, ⟨2, [], true⟩]⟩ : FakeClock).store[5]? ∧
    ((((NewFakeClock 6).After 0).1.Advance 3).store[((NewFakeClock 6).After 0).2]? =
        some ⟨0, [(NewFakeClock 6).Now], true⟩ ∧
      ((NewFakeClock 6).After 0).2 ∉ (((NewFakeClock 6).After 0).1.Advance 3).waiters) :=
  ⟨(C8_zero_duration_behavior.1 ⟨[0, 1], 4, [⟨0, [], true⟩, ⟨2, [], true⟩]⟩ 0
      ⟨0, [], true⟩ (by decide) (by decide) (by decide)).1 (by decide),
    (C8_zero_duration_behavior.1 ⟨[0, 1], 4, [⟨0, [], true⟩, ⟨2, [], true⟩]⟩ 1
      ⟨2, [], true⟩ (by decide) (by decide) (by decide)).2 (by decide),
    (C8_zero_duration_behavior.2.1 ⟨[0, 1], 4, [⟨0, [], true⟩, ⟨2, [], true⟩]⟩).2 5
      (by decide),
    C8_zero_duration_behavior.2.2 (NewFakeClock 6) 3 (by decide) (by decide) (by decide)⟩
